import Mathlib

/-!
Shallow embedding of the `baskets` repository core:
`src/baskets/portfolio.py` (holdings validation, normalization, per-position
pipeline) and `src/baskets/database.py` (dated snapshot store).

Python floats are modelled as exact rationals (`ℚ`); fallible code (Python
exceptions) is modelled with `Except String`.  Directory listings are modelled
as ordered association lists whose order is the order `os.listdir` returns
(which Python documents as arbitrary, not sorted).
-/

namespace Baskets

/-- A cell of a holdings table: either a string or a number (Python float). -/
inductive Value where
  | str (s : String)
  | num (q : ℚ)
deriving DecidableEq

/-- Python float value of a cell; non-numeric cells never reach arithmetic in
the modelled pipeline, they default to 0. -/
def Value.toQ : Value → ℚ
  | .num q => q
  | .str _ => 0

/-- A table row: association list from column name to cell value. -/
abbrev Row := List (String × Value)

/-- Cell of a row at a column, if present. -/
def Row.findv (r : Row) (c : String) : Option Value :=
  List.lookup c r

/-- Cell of a row at a column, defaulting to the empty string (the modelled
pipeline only reads columns that are present). -/
def Row.getv (r : Row) (c : String) : Value :=
  (r.findv c).getD (Value.str "")

/-- Numeric cell of a row at a column (Python attribute access `row.fraction`). -/
def Row.getQ (r : Row) (c : String) : ℚ :=
  (r.getv c).toQ

/-- Modelled from the spec: the Table abstraction of `baskets/table.py` is an
external collaborator not under `src/` (spec section 6: "ordered-rows /
named-columns container" supporting select, map, create, delete, filter,
concat).  A table is an ordered column list plus ordered rows. -/
structure Table where
  columns : List String
  rows : List Row
deriving DecidableEq

/-- Modelled from the spec: column values, one per row in row order. -/
def Table.values (t : Table) (c : String) : List (Option Value) :=
  t.rows.map (·.findv c)

/-- Modelled from the spec: `create` adds a column derived from each row. -/
def Table.create (t : Table) (c : String) (f : Row → Value) : Table :=
  ⟨t.columns ++ [c], t.rows.map (fun r => r ++ [(c, f r)])⟩

/-- Helper for `Table.mapcol`: transform the cell of one named column. -/
def mapPair (c : String) (f : Value → Value) (p : String × Value) : String × Value :=
  if p.1 = c then (p.1, f p.2) else p

/-- Modelled from the spec: per-column transform (`Table.map` in the source,
`tbl.map('fraction', fn)`). -/
def Table.mapcol (t : Table) (c : String) (f : Value → Value) : Table :=
  ⟨t.columns, t.rows.map (fun r => r.map (mapPair c f))⟩

/-- Modelled from the spec: column projection / reordering (`select`). -/
def Table.select (t : Table) (cols : List String) : Table :=
  ⟨cols, t.rows.map (fun r => cols.map (fun c => (c, r.getv c)))⟩

/-- Modelled from the spec: column removal (`delete`). -/
def Table.delete (t : Table) (cols : List String) : Table :=
  ⟨t.columns.filter (fun c => !(cols.contains c)),
   t.rows.map (fun r => r.filter (fun p => !(cols.contains p.1)))⟩

/-- Modelled from the spec: row filtering. -/
def Table.filterRows (t : Table) (p : Row → Bool) : Table :=
  ⟨t.columns, t.rows.filter p⟩

/-- Modelled from the spec: concatenation of same-shaped tables
(`table.concat(*alltables)`); rows are concatenated in order. -/
def concatTables : List Table → Table
  | [] => ⟨[], []⟩
  | t :: ts => ⟨t.columns, (List.map Table.rows (t :: ts)).flatten⟩

/-- `ASSTYPES` from portfolio.py: the allowed asset classes. -/
def ASSTYPES : List String := ["Equity", "FixedIncome", "ShortTerm"]

/-- `IDCOLUMNS` from portfolio.py: the five identifier columns. -/
def IDCOLUMNS : List String := ["name", "ticker", "sedol", "isin", "cusip"]

/-- `COLUMNS` from portfolio.py: canonical column order. -/
def COLUMNS : List String := ["etf", "account", "fraction", "asstype"] ++ IDCOLUMNS

/-- The `allowed` set in `check_holdings`. -/
def allowedColumns : List String := ["asstype", "fraction"] ++ IDCOLUMNS

/-- Sum of the fraction column, `sum([row.fraction for row in tbl])`. -/
def fracSum (t : Table) : ℚ :=
  (t.rows.map (fun r => r.getQ "fraction")).sum

/-- Python float division: raises `ZeroDivisionError` on a zero denominator. -/
def pydiv (a b : ℚ) : Except String ℚ :=
  if b = 0 then Except.error "ZeroDivisionError" else Except.ok (a / b)

/-- `normalize_holdings_table` from portfolio.py: sums the fraction column,
logs an error when the total is outside `0.98 < total < 1.02` (returned here
as the Bool component), computes `scale = 1. / total` (Python division, so a
zero total raises), and rescales the fraction column. -/
def normalize_holdings_table (t : Table) : Except String (Bool × Table) :=
  let total := fracSum t
  let warned : Bool := if 98/100 < total ∧ total < 102/100 then false else true
  match pydiv 1 total with
  | Except.error e => Except.error e
  | Except.ok scale =>
      Except.ok (warned, t.mapcol "fraction" (fun f => Value.num (f.toQ * scale)))

/-- Asset-class cell check used by `check_holdings`:
`cls in ASSTYPES` for a cell of the asstype column. -/
def asstypeValOk : Option Value → Bool
  | some (Value.str s) => ASSTYPES.contains s
  | _ => false

/-- `check_holdings` from portfolio.py, as a Boolean predicate (`false` means
one of the asserts or the `ValueError` fires).  The checks, in source order:
no columns outside the allowed set, required columns present, at least one
identifier column present, every asstype value in `ASSTYPES`, and no `"-"`
cell in any present identifier column. -/
def check_holdings (t : Table) : Bool :=
  (t.columns.all fun c => allowedColumns.contains c) &&
  (t.columns.contains "asstype" && t.columns.contains "fraction") &&
  (IDCOLUMNS.any fun c => t.columns.contains c) &&
  ((t.values "asstype").all asstypeValOk) &&
  (IDCOLUMNS.all fun c =>
    !(t.columns.contains c) || !((t.values c).contains (some (Value.str "-"))))

/-- One step of `add_missing_columns`: add one identifier column if absent. -/
def addColStep (tbl : Table) (c : String) : Table :=
  if tbl.columns.contains c then tbl else tbl.create c (fun _ => Value.str "")

/-- `add_missing_columns` from portfolio.py: for each identifier column not in
the table, create it with every value the empty string. -/
def add_missing_columns (t : Table) : Table :=
  IDCOLUMNS.foldl addColStep t

/-- Well-formedness of a table: every row has exactly the table's columns as
keys, in order (the Table collaborator maintains this). -/
abbrev WF (t : Table) : Prop := ∀ r ∈ t.rows, r.map Prod.fst = t.columns

/-!  The snapshot store, `src/baskets/database.py`.  A filesystem entry is a
file or a directory; a directory's children are listed in the order
`os.listdir` returns them, which is arbitrary (not sorted). -/

/-- A filesystem entry: a plain file, or a directory whose child list is in
`os.listdir` order. -/
inductive FSEntry where
  | file : FSEntry
  | dir (children : List (String × FSEntry)) : FSEntry

/-- Lexicographic comparison of character lists, as Python compares strings
codepoint by codepoint. -/
def charsLtb : List Char → List Char → Bool
  | [], [] => false
  | [], _ :: _ => true
  | _ :: _, [] => false
  | a :: as, b :: bs => if a < b then true else if b < a then false else charsLtb as bs

/-- Lexicographic comparison of strings (Python `<` on `str`). -/
def strLtb (a b : String) : Bool := charsLtb a.data b.data

/-- Lexicographically greatest element of a list of names
(`sorted(filenames)[-1]` in Python); `""` for an empty list. -/
def maxName : List String → String
  | [] => ""
  | h :: t => t.foldl (fun a b => if strLtb a b then b else a) h

/-- Result of `getlatest`: an uncaught Python exception, `None`, or a path. -/
inductive FileRes where
  | raised (msg : String)
  | absent
  | found (p : String)
deriving DecidableEq

/-- The loop body of `getlatest`, with the remaining loop count as fuel.
Each of the three loop iterations does `os.listdir(curdir)` (raising
`NotADirectoryError` on a file, returning `None` on an empty listing) and then
descends into `filenames[-1]` — the positionally last entry of the unsorted
listing.  After the loop (fuel 0) the final listing is sorted and the
lexicographically last filename is joined to the path. -/
def getlatestAux : FSEntry → String → Nat → FileRes
  | FSEntry.file, _, _ => FileRes.raised "NotADirectoryError"
  | FSEntry.dir cs, cur, 0 =>
      if cs.isEmpty then FileRes.absent
      else FileRes.found (cur ++ "/" ++ maxName (cs.map Prod.fst))
  | FSEntry.dir cs, cur, n + 1 =>
      match cs.getLast? with
      | none => FileRes.absent
      | some (nm, ch) => getlatestAux ch (cur ++ "/" ++ nm) n

/-- `getlatest` from database.py: starting at `directory/key`, run the
three-iteration descent; a missing `key` raises `FileNotFoundError`, which is
caught and turned into `None`. -/
def getlatest (root : FSEntry) (directory key : String) : FileRes :=
  match root with
  | FSEntry.file => FileRes.raised "NotADirectoryError"
  | FSEntry.dir cs =>
      match List.lookup key cs with
      | none => FileRes.absent
      | some e => getlatestAux e (directory ++ "/" ++ key) 3

/-- For comparison with the claim: `resolve_latest` as the spec words it
(spec section 4.1) — at each of the three levels descend into the child with
the lexicographically greatest name, then return the lexicographically
greatest filename of the day directory. -/
def specResolveAux : FSEntry → String → Nat → Option String
  | FSEntry.file, _, _ => none
  | FSEntry.dir cs, cur, 0 =>
      if cs.isEmpty then none
      else some (cur ++ "/" ++ maxName (cs.map Prod.fst))
  | FSEntry.dir cs, cur, n + 1 =>
      match List.lookup (maxName (cs.map Prod.fst)) cs with
      | none => none
      | some ch => specResolveAux ch (cur ++ "/" ++ maxName (cs.map Prod.fst)) n

/-- For comparison with the claim: `resolve_latest` as the spec words it. -/
def specResolveLatest (root : FSEntry) (directory key : String) : Option String :=
  match root with
  | FSEntry.file => none
  | FSEntry.dir cs =>
      match List.lookup key cs with
      | none => none
      | some e => specResolveAux e (directory ++ "/" ++ key) 3

/-- A calendar date, as used by `getdir`. -/
structure Date where
  year : Nat
  month : Nat
  day : Nat

/-- Zero-padded decimal rendering, as Python `'{:%Y}'` / `'{:%m}'` / `'{:%d}'`. -/
def pad (w : Nat) (n : Nat) : String :=
  let s := toString n
  String.mk (List.replicate (w - s.length) '0') ++ s

/-- `getdir` from database.py: `path.join(db.directory, key, '{:%Y/%m/%d}')`. -/
def getdir (directory key : String) (d : Date) : String :=
  directory ++ "/" ++ key ++ "/" ++ pad 4 d.year ++ "/" ++ pad 2 d.month ++ "/" ++ pad 2 d.day

/-- The path segments of the dated directory, relative to the store root. -/
def segsOf (key : String) (d : Date) : List String :=
  [key, pad 4 d.year, pad 2 d.month, pad 2 d.day]

/-- Walk a relative path through the filesystem tree; `none` when a segment is
missing or a file is reached early (so `path.exists` is false). -/
def lookupPath : FSEntry → List String → Option FSEntry
  | e, [] => some e
  | FSEntry.file, _ :: _ => none
  | FSEntry.dir cs, n :: rest =>
      match List.lookup n cs with
      | none => none
      | some c => lookupPath c rest

/-- `get` from database.py: if the dated directory exists, list it and return
the lexicographically last filename joined to the dated path (or `None` if the
listing is empty); if the path does not exist, fall through to `None`.
Listing a file (the path exists but is not a directory) raises. -/
def get (root : FSEntry) (directory key : String) (d : Date) : Except String (Option String) :=
  match lookupPath root (segsOf key d) with
  | none => Except.ok none
  | some FSEntry.file => Except.error "NotADirectoryError"
  | some (FSEntry.dir cs) =>
      if cs.isEmpty then Except.ok none
      else Except.ok (some (getdir directory key d ++ "/" ++ maxName (cs.map Prod.fst)))

/-!  The per-position pipeline of `portfolio.py main()`. -/

/-- One declared portfolio position (ticker, account, issuer, price, quantity). -/
structure Position where
  issuer : String
  ticker : String
  account : String
  quantity : ℚ
  price : ℚ

/-- The command-line configuration bits the loop reads. -/
structure Config where
  ignoreMissingIssuer : Bool
  ignoreShorts : Bool

/-- Modelled from the spec: the issuer registry (`baskets/issuers`) is an
external collaborator not under `src/`; per spec section 9 it is an optional
capability descriptor — present or absent and, when present, an optional
`parse` implementation (the `hasattr(downloader, 'parse')` probe). -/
structure Downloader where
  parse : Option (String → Table)

/-- Outcome of processing one position: abort the whole run (uncaught
exception / `SystemExit`), skip the position (`continue`), or contribute a
holdings table. -/
inductive StepResult where
  | abort (msg : String)
  | skip
  | ok (t : Table)
deriving DecidableEq

/-- The single-row 100% direct-equity table synthesized for a position with no
issuer key: `Table(['fraction','asstype','ticker'], ..., [[1.0,'Equity',ticker]])`. -/
def synthTable (ticker : String) : Table :=
  ⟨["fraction", "asstype", "ticker"],
   [[("fraction", Value.num 1), ("asstype", Value.str "Equity"),
     ("ticker", Value.str ticker)]]⟩

/-- The common tail of the loop body: `add_missing_columns`, attach `etf` and
`account`, project to `COLUMNS`, convert fractions to dollar amounts
(`amount = fraction * quantity * price`) and drop the fraction column. -/
def commonTail (holdings : Table) (pos : Position) : Table :=
  let h := add_missing_columns holdings
  let h := h.create "etf" (fun _ => Value.str pos.ticker)
  let h := h.create "account" (fun _ => Value.str pos.account)
  let h := h.select COLUMNS
  let a := pos.quantity * pos.price
  (h.create "amount" (fun r => Value.num (r.getQ "fraction" * a))).delete ["fraction"]

/-- One iteration of the position loop in `main()` (portfolio.py lines
106-150): skip shorts if configured; synthesize a direct-equity table when the
issuer is empty; otherwise look up the issuer (missing issuer aborts unless
`--ignore-missing-issuer` was passed), resolve the latest snapshot (missing
file: skip), require a `parse` capability (missing: skip), parse, and validate
(a validation failure raises and aborts the run). -/
def processPosition (cfg : Config) (reg : String → Option Downloader)
    (store : FSEntry) (directory : String) (pos : Position) : StepResult :=
  if pos.quantity < 0 ∧ cfg.ignoreShorts then StepResult.skip
  else if pos.issuer = "" then
    StepResult.ok (commonTail (synthTable pos.ticker) pos)
  else
    match reg pos.issuer with
    | none =>
        if cfg.ignoreMissingIssuer then StepResult.skip
        else StepResult.abort ("Missing issuer: " ++ pos.issuer)
    | some dl =>
        match getlatest store directory pos.ticker with
        | FileRes.raised m => StepResult.abort m
        | FileRes.absent => StepResult.skip
        | FileRes.found fn =>
            match dl.parse with
            | none => StepResult.skip
            | some pf =>
                let holdings := pf fn
                if check_holdings holdings then
                  StepResult.ok (commonTail holdings pos)
                else StepResult.abort "Invalid holdings table"

/-- Run the loop over all positions, accumulating the per-position tables
(`alltables`); the first abort ends the run. -/
def collectTables (cfg : Config) (reg : String → Option Downloader)
    (store : FSEntry) (directory : String) : List Position → Except String (List Table)
  | [] => Except.ok []
  | p :: ps =>
      match processPosition cfg reg store directory p with
      | StepResult.abort m => Except.error m
      | StepResult.skip => collectTables cfg reg store directory ps
      | StepResult.ok t =>
          match collectTables cfg reg store directory ps with
          | Except.error m => Except.error m
          | Except.ok ts => Except.ok (t :: ts)

/-- The pipeline up to `fulltable = table.concat(*alltables)`. -/
def runPipeline (cfg : Config) (reg : String → Option Downloader)
    (store : FSEntry) (directory : String) (positions : List Position) :
    Except String Table :=
  match collectTables cfg reg store directory positions with
  | Except.error m => Except.error m
  | Except.ok ts => Except.ok (concatTables ts)

/-- The post-aggregation reporting step of `main()` (portfolio.py lines
159-168): `filt_annotable` is assigned only inside `if args.threshold:` (a
zero threshold is falsy), yet the summary logging reads it unconditionally —
reading it unassigned raises `UnboundLocalError`.  On success, returns the
total of the filtered annotated table together with that table. -/
def reporting (threshold : ℚ) (aggtable annotable : Table) : Except String (ℚ × Table) :=
  let filt : Option Table :=
    if threshold = 0 then none
    else some (annotable.filterRows (fun r =>
      threshold < ((aggtable.rows.getD (r.getQ "group").num.toNat []).getQ "amount")))
  match filt with
  | none => Except.error "UnboundLocalError: local variable 'filt_annotable' referenced before assignment"
  | some ft => Except.ok ((ft.rows.map (fun r => r.getQ "amount")).sum, ft)

/-!  Concrete inputs used by the witnesses and counterexamples. -/

/-- Default configuration: neither `--ignore-missing-issuer` nor
`--ignore-shorts` passed. -/
def cfgDefault : Config := ⟨false, false⟩

/-- Configuration with `--ignore-missing-issuer` passed. -/
def cfgIgnore : Config := ⟨true, false⟩

/-- A registry with no issuer implementations. -/
def regEmpty : String → Option Downloader := fun _ => none

/-- A position whose issuer has no registered implementation. -/
def posV : Position := ⟨"vanguard", "VTI", "acct", 5, 1⟩

/-- A small valid holdings table. -/
def okHoldings : Table :=
  ⟨["asstype", "fraction", "ticker"],
   [[("asstype", Value.str "Equity"), ("fraction", Value.num 1),
     ("ticker", Value.str "ABC")]]⟩

/-- A holdings table that satisfies all four failure-free conditions of the
claim but carries a column outside the allowed set. -/
def cexExtra : Table :=
  ⟨["asstype", "fraction", "ticker", "extra"],
   [[("asstype", Value.str "Equity"), ("fraction", Value.num 1),
     ("ticker", Value.str "ABC"), ("extra", Value.str "x")]]⟩

/-- A one-row table whose fraction column sums to 1/2. -/
def tHalf : Table := ⟨["fraction"], [[("fraction", Value.num (1/2))]]⟩

/-- A holdings table with no rows: its fraction column sums to 0. -/
def emptyHoldings : Table := ⟨["fraction", "asstype", "ticker"], []⟩

/-- Scenario B disclosure table: fractions `[0.3, 0.3, 0.3]`, sum 0.9. -/
def scenB : Table :=
  ⟨["fraction", "asstype", "ticker"],
   [[("fraction", Value.num (3/10)), ("asstype", Value.str "Equity"),
     ("ticker", Value.str "A")],
    [("fraction", Value.num (3/10)), ("asstype", Value.str "Equity"),
     ("ticker", Value.str "B")],
    [("fraction", Value.num (3/10)), ("asstype", Value.str "Equity"),
     ("ticker", Value.str "C")]]⟩

/-- A registry whose only issuer "ISS" parses every file to `scenB`. -/
def regB : String → Option Downloader :=
  fun s => if s = "ISS" then some ⟨some (fun _ => scenB)⟩ else none

/-- A store holding one snapshot for ticker "GLD". -/
def storeB : FSEntry :=
  FSEntry.dir [("GLD", FSEntry.dir [("2018", FSEntry.dir [("06",
    FSEntry.dir [("15", FSEntry.dir [("h.csv", FSEntry.file)])])])])]

/-- The scenario B position: 100 units of "GLD" at price 10. -/
def posB : Position := ⟨"ISS", "GLD", "acct", 100, 10⟩

/-- A key directory whose `os.listdir` order is not sorted: the year listing
comes back as `["2019", "2018"]`, so the positionally last entry is "2018"
while the lexicographically last is "2019". -/
def exK : FSEntry :=
  FSEntry.dir [
    ("2019", FSEntry.dir [("01", FSEntry.dir [("01",
      FSEntry.dir [("g.csv", FSEntry.file)])])]),
    ("2018", FSEntry.dir [("06", FSEntry.dir [("15",
      FSEntry.dir [("f.csv", FSEntry.file)])])])]

/-- A store root with the single key "K". -/
def exStore : FSEntry := FSEntry.dir [("K", exK)]

/-- A day directory listing with two files. -/
def exCs : List (String × FSEntry) := [("a.csv", FSEntry.file), ("b.csv", FSEntry.file)]

/-- A store holding two files for "SPY" on 2018-06-15. -/
def exG : FSEntry :=
  FSEntry.dir [("SPY", FSEntry.dir [("2018", FSEntry.dir [("06",
    FSEntry.dir [("15", FSEntry.dir exCs)])])])]

/-- The date 2018-06-15. -/
def exD : Date := ⟨2018, 6, 15⟩

/-- For comparison with the claim: the success condition of `validate` as
claim C2 states it — required columns present, an identifier column present,
every asstype value in the enumerated set, and no "-" in any present
identifier column (the claim omits the extra-column check). -/
def claimValidateOk (t : Table) : Bool :=
  (t.columns.contains "asstype" && t.columns.contains "fraction") &&
  (IDCOLUMNS.any fun c => t.columns.contains c) &&
  ((t.values "asstype").all asstypeValOk) &&
  (IDCOLUMNS.all fun c =>
    !(t.columns.contains c) || !((t.values c).contains (some (Value.str "-"))))

/-!  Order lemmas for `maxName`: it is the lexicographically greatest
element of a nonempty list. -/

theorem charsLtb_iff (as : List Char) : ∀ bs : List Char, charsLtb as bs = true ↔ as < bs := by
  induction as with
  | nil =>
    intro bs
    cases bs with
    | nil =>
      constructor
      · intro h; simp [charsLtb] at h
      · intro h; cases h
    | cons b bs =>
      constructor
      · intro _; exact List.Lex.nil
      · intro _; rfl
  | cons a as ih =>
    intro bs
    cases bs with
    | nil =>
      constructor
      · intro h; simp [charsLtb] at h
      · intro h; cases h
    | cons b bs =>
      constructor
      · intro h
        by_cases h1 : a < b
        · exact List.Lex.rel h1
        · rw [charsLtb, if_neg h1] at h
          by_cases h2 : b < a
          · rw [if_pos h2] at h; cases h
          · rw [if_neg h2] at h
            have hab : a = b := le_antisymm (le_of_not_lt h2) (le_of_not_lt h1)
            subst hab
            exact List.Lex.cons ((ih bs).mp h)
      · intro h
        cases h with
        | cons h' =>
          rw [charsLtb, if_neg (lt_irrefl a), if_neg (lt_irrefl a)]
          exact (ih bs).mpr h'
        | rel h' => rw [charsLtb, if_pos h']

theorem strLtb_iff (a b : String) : strLtb a b = true ↔ a < b := by
  rw [String.lt_iff_toList_lt]
  exact charsLtb_iff a.data b.data

theorem le_maxStep (a b : String) : b ≤ (if strLtb a b then b else a) := by
  by_cases h : strLtb a b
  · rw [if_pos h]
  · rw [if_neg h]
    exact le_of_not_lt (fun hl => h ((strLtb_iff a b).mpr hl))

theorem init_le_maxStep (a b : String) : a ≤ (if strLtb a b then b else a) := by
  by_cases h : strLtb a b
  · rw [if_pos h]
    exact le_of_lt ((strLtb_iff a b).mp h)
  · rw [if_neg h]

theorem init_le_foldlMax (l : List String) : ∀ a : String, a ≤ l.foldl (fun a b => if strLtb a b then b else a) a := by
  induction l with
  | nil => intro a; exact le_refl a
  | cons b l ih =>
    intro a
    exact le_trans (init_le_maxStep a b) (ih _)

theorem mem_le_foldlMax (l : List String) : ∀ (a : String), ∀ x ∈ l, x ≤ l.foldl (fun a b => if strLtb a b then b else a) a := by
  induction l with
  | nil => intro a x hx; cases hx
  | cons b l ih =>
    intro a x hx
    rcases List.mem_cons.mp hx with rfl | hx
    · exact le_trans (le_maxStep a x) (init_le_foldlMax l _)
    · exact ih _ x hx

theorem foldlMax_mem (l : List String) : ∀ a : String, l.foldl (fun a b => if strLtb a b then b else a) a = a ∨ l.foldl (fun a b => if strLtb a b then b else a) a ∈ l := by
  induction l with
  | nil => intro a; exact Or.inl rfl
  | cons b l ih =>
    intro a
    rw [List.foldl_cons]
    by_cases h : strLtb a b
    · rw [if_pos h]
      rcases ih b with h' | h'
      · right; rw [h']; exact List.mem_cons_self b l
      · right; exact List.mem_cons_of_mem b h'
    · rw [if_neg h]
      rcases ih a with h' | h'
      · left; exact h'
      · right; exact List.mem_cons_of_mem b h'

theorem maxName_mem (l : List String) (h : l ≠ []) : maxName l ∈ l := by
  match l with
  | h₀ :: t =>
    rw [maxName]
    rcases foldlMax_mem t h₀ with h' | h'
    · rw [h']; exact List.mem_cons_self h₀ t
    · exact List.mem_cons_of_mem h₀ h'

theorem le_maxName (l : List String) (x : String) (hx : x ∈ l) : x ≤ maxName l := by
  match l with
  | h₀ :: t =>
    rw [maxName]
    rcases List.mem_cons.mp hx with rfl | hx'
    · exact init_le_foldlMax t x
    · exact mem_le_foldlMax t h₀ x hx'

/-!  Lemmas about rescaling the fraction column. -/

theorem lookup_map_mapPair (c : String) (f : Value → Value) (r : Row) :
    List.lookup c (r.map (mapPair c f)) = (List.lookup c r).map f := by
  induction r with
  | nil => rfl
  | cons p r ih =>
    obtain ⟨k, v⟩ := p
    by_cases h : k = c
    · subst h
      simp [mapPair, List.lookup_cons]
    · have hne : (c == k) = false := by
        simp only [beq_eq_false_iff_ne, ne_eq]
        exact fun hc => h hc.symm
      simp [mapPair, h, List.lookup_cons, hne, ih]

theorem getQ_map_mapPair (c : String) (s : ℚ) (r : Row) :
    Row.getQ (r.map (mapPair c (fun v => Value.num (v.toQ * s)))) c = r.getQ c * s := by
  rw [Row.getQ, Row.getQ, Row.getv, Row.getv, Row.findv, Row.findv, lookup_map_mapPair]
  cases List.lookup c r with
  | none => simp [Value.toQ]
  | some v => simp [Value.toQ]

theorem sum_map_scale (l : List Row) (g : Row → ℚ) (s : ℚ) :
    (l.map (fun x => g x * s)).sum = (l.map g).sum * s := by
  induction l with
  | nil => simp
  | cons x l ih => simp [ih, add_mul]

theorem fracSum_mapcol (t : Table) (s : ℚ) :
    fracSum (t.mapcol "fraction" (fun v => Value.num (v.toQ * s))) = fracSum t * s := by
  rw [fracSum, fracSum, Table.mapcol]
  simp only [List.map_map]
  rw [← sum_map_scale]
  congr 1
  apply List.map_congr_left
  intro r _
  exact getQ_map_mapPair "fraction" s r


theorem fracSum_tHalf : fracSum tHalf = 1/2 := by
  norm_num [fracSum, tHalf, Row.getQ, Row.getv, Row.findv, List.lookup, Value.toQ]

/-- Claim C6: for every holdings table whose fraction column sums to S > 0,
`normalize_holdings_table` multiplies each fraction by 1/S, the resulting
fraction column sums to exactly 1 (hence within tolerance 1e-9), and the
non-fatal warning is emitted if and only if S lies outside the open interval
(0.98, 1.02). -/
theorem normalize_fractions_sums_to_one (t : Table) (h : 0 < fracSum t) :
    ∃ w t2, normalize_holdings_table t = Except.ok (w, t2) ∧
      t2 = t.mapcol "fraction" (fun f => Value.num (f.toQ * (1 / fracSum t))) ∧
      fracSum t2 = 1 ∧ |fracSum t2 - 1| ≤ 1 / 10 ^ 9 ∧
      (w = true ↔ (fracSum t ≤ 98 / 100 ∨ 102 / 100 ≤ fracSum t)) := by
  have hne : fracSum t ≠ 0 := ne_of_gt h
  have hone : fracSum (t.mapcol "fraction" (fun f => Value.num (f.toQ * (1 / fracSum t)))) = 1 := by
    rw [fracSum_mapcol, mul_one_div_cancel hne]
  refine ⟨if 98/100 < fracSum t ∧ fracSum t < 102/100 then false else true, _, ?_, rfl, hone, ?_, ?_⟩
  · rw [normalize_holdings_table]
    simp only [pydiv, if_neg hne]
  · rw [hone]
    norm_num
  · by_cases hp : 98/100 < fracSum t ∧ fracSum t < 102/100
    · rw [if_pos hp]
      simp only [Bool.false_eq_true, false_iff, not_or, not_le]
      exact hp
    · rw [if_neg hp]
      simp only [true_iff]
      rcases not_and_or.mp hp with h' | h'
      · exact Or.inl (le_of_not_lt h')
      · exact Or.inr (le_of_not_lt h')

/-- Witness for claim C6: the theorem applied at a concrete one-row table
whose fraction column sums to 1/2. -/
theorem normalize_fractions_sums_to_one_w :
    0 < fracSum tHalf ∧
    ∃ w t2, normalize_holdings_table tHalf = Except.ok (w, t2) ∧
      t2 = tHalf.mapcol "fraction" (fun f => Value.num (f.toQ * (1 / fracSum tHalf))) ∧
      fracSum t2 = 1 ∧ |fracSum t2 - 1| ≤ 1 / 10 ^ 9 ∧
      (w = true ↔ (fracSum tHalf ≤ 98 / 100 ∨ 102 / 100 ≤ fracSum tHalf)) := by
  have hpos : 0 < fracSum tHalf := by rw [fracSum_tHalf]; norm_num
  exact ⟨hpos, normalize_fractions_sums_to_one tHalf hpos⟩

/-!  Lemmas about `add_missing_columns`. -/

theorem lookup_eq_none_of_not_mem_keys (c : String) (r : Row) (h : c ∉ r.map Prod.fst) :
    List.lookup c r = none := by
  rw [List.lookup_eq_none_iff]
  intro p hp
  simp only [bne_iff_ne, ne_eq]
  intro hc
  exact h (hc ▸ List.mem_map_of_mem Prod.fst hp)

theorem lookup_append_left_some (c : String) (r r2 : Row) (v : Value)
    (h : List.lookup c r = some v) : List.lookup c (r ++ r2) = some v := by
  rw [List.lookup_append, h]
  rfl

theorem lookup_append_right_none (c : String) (r r2 : Row)
    (h : List.lookup c r = none) : List.lookup c (r ++ r2) = List.lookup c r2 := by
  rw [List.lookup_append, h]
  rfl

theorem mem_columns_addColStep (t : Table) (a c : String) (h : c ∈ t.columns) :
    c ∈ (addColStep t a).columns := by
  rw [addColStep]
  split
  · exact h
  · exact List.mem_append_left _ h

theorem mem_columns_foldlAdd (l : List String) : ∀ (t : Table) (c : String),
    c ∈ t.columns → c ∈ (l.foldl addColStep t).columns := by
  induction l with
  | nil => intro t c h; exact h
  | cons a l ih =>
    intro t c h
    rw [List.foldl_cons]
    exact ih _ c (mem_columns_addColStep t a c h)

theorem mem_columns_foldlAdd_self (l : List String) : ∀ (t : Table) (c : String),
    c ∈ l → c ∈ (l.foldl addColStep t).columns := by
  induction l with
  | nil => intro t c h; cases h
  | cons a l ih =>
    intro t c h
    rw [List.foldl_cons]
    rcases List.mem_cons.mp h with rfl | h'
    · apply mem_columns_foldlAdd
      rw [addColStep]
      split
      · next hcont => simpa using hcont
      · exact List.mem_append_right _ (List.mem_singleton.mpr rfl)
    · exact ih _ c h'

theorem foldlAdd_id (l : List String) : ∀ t : Table,
    (∀ a ∈ l, a ∈ t.columns) → l.foldl addColStep t = t := by
  induction l with
  | nil => intro t _; rfl
  | cons a l ih =>
    intro t h
    have hstep : addColStep t a = t := by
      rw [addColStep, if_pos (List.elem_eq_true_of_mem (h a (List.mem_cons_self a l)))]
    rw [List.foldl_cons, hstep]
    exact ih t (fun b hb => h b (List.mem_cons_of_mem a hb))

theorem rows_length_addColStep (t : Table) (a : String) :
    (addColStep t a).rows.length = t.rows.length := by
  rw [addColStep]
  split
  · rfl
  · simp [Table.create]

theorem rows_length_foldlAdd (l : List String) : ∀ t : Table,
    (l.foldl addColStep t).rows.length = t.rows.length := by
  induction l with
  | nil => intro t; rfl
  | cons a l ih =>
    intro t
    rw [List.foldl_cons, ih, rows_length_addColStep]

theorem lookup_some_addColStep (t : Table) (a c : String) (v : Value)
    (h : ∀ r ∈ t.rows, List.lookup c r = some v) :
    ∀ r ∈ (addColStep t a).rows, List.lookup c r = some v := by
  rw [addColStep]
  split
  · exact h
  · intro r hr
    rcases List.mem_map.mp hr with ⟨r0, hr0, rfl⟩
    exact lookup_append_left_some c r0 _ v (h r0 hr0)

theorem lookup_some_foldlAdd (l : List String) : ∀ (t : Table) (c : String) (v : Value),
    (∀ r ∈ t.rows, List.lookup c r = some v) →
    ∀ r ∈ (l.foldl addColStep t).rows, List.lookup c r = some v := by
  induction l with
  | nil => intro t c v h; exact h
  | cons a l ih =>
    intro t c v h
    rw [List.foldl_cons]
    exact ih _ c v (lookup_some_addColStep t a c v h)

theorem not_mem_columns_addColStep (t : Table) (a c : String) (hc : c ∉ t.columns)
    (hac : a ≠ c) : c ∉ (addColStep t a).columns := by
  rw [addColStep]
  split
  · exact hc
  · intro hmem
    rcases List.mem_append.mp hmem with h' | h'
    · exact hc h'
    · exact hac (List.mem_singleton.mp h').symm

theorem lookup_none_addColStep (t : Table) (a c : String) (hac : a ≠ c)
    (h : ∀ r ∈ t.rows, List.lookup c r = none) :
    ∀ r ∈ (addColStep t a).rows, List.lookup c r = none := by
  rw [addColStep]
  split
  · exact h
  · intro r hr
    rcases List.mem_map.mp hr with ⟨r0, hr0, rfl⟩
    rw [lookup_append_right_none c r0 _ (h r0 hr0)]
    have hca : (c == a) = false := by
      simp only [beq_eq_false_iff_ne, ne_eq]
      exact fun hcc => hac hcc.symm
    simp [List.lookup_cons, hca]

theorem foldlAdd_fills (l : List String) : ∀ (t : Table) (c : String),
    c ∈ l → c ∉ t.columns → (∀ r ∈ t.rows, List.lookup c r = none) →
    ∀ r ∈ (l.foldl addColStep t).rows, List.lookup c r = some (Value.str "") := by
  induction l with
  | nil => intro t c hc; cases hc
  | cons a l ih =>
    intro t c hcl hcol hnone
    rw [List.foldl_cons]
    by_cases hac : a = c
    · subst hac
      have hcont : ¬(t.columns.contains a = true) := fun hh => hcol (by simpa using hh)
      have hstep : addColStep t a = t.create a (fun _ => Value.str "") := by
        rw [addColStep, if_neg hcont]
      rw [hstep]
      apply lookup_some_foldlAdd
      intro r hr
      rcases List.mem_map.mp hr with ⟨r0, hr0, rfl⟩
      rw [lookup_append_right_none a r0 _ (hnone r0 hr0)]
      simp [List.lookup_cons]
    · rcases List.mem_cons.mp hcl with rfl | hcl'
      · exact absurd rfl hac
      · exact ih (addColStep t a) c hcl'
          (not_mem_columns_addColStep t a c hcol hac)
          (lookup_none_addColStep t a c hac hnone)

/-- Claim C9: for every well-formed holdings table, `add_missing_columns`
keeps every existing column, ensures every one of the five identifier columns
is present, fills each previously absent identifier column with the empty
string in every row, and is idempotent. -/
theorem add_missing_columns_ok (t : Table) (hwf : WF t) :
    (∀ c ∈ t.columns, c ∈ (add_missing_columns t).columns) ∧
    (∀ c ∈ IDCOLUMNS, c ∈ (add_missing_columns t).columns) ∧
    (∀ c ∈ IDCOLUMNS, c ∉ t.columns →
      (add_missing_columns t).values c = List.replicate t.rows.length (some (Value.str ""))) ∧
    add_missing_columns (add_missing_columns t) = add_missing_columns t := by
  refine ⟨?_, ?_, ?_, ?_⟩
  · intro c hc
    exact mem_columns_foldlAdd IDCOLUMNS t c hc
  · intro c hc
    exact mem_columns_foldlAdd_self IDCOLUMNS t c hc
  · intro c hc hnot
    have hnone : ∀ r ∈ t.rows, List.lookup c r = none := fun r hr =>
      lookup_eq_none_of_not_mem_keys c r (by rw [hwf r hr]; exact hnot)
    have hfill := foldlAdd_fills IDCOLUMNS t c hc hnot hnone
    have hmem : ∀ x ∈ (add_missing_columns t).rows.map (fun r => Row.findv r c),
        x = some (Value.str "") := by
      intro x hx
      rcases List.mem_map.mp hx with ⟨r, hr, rfl⟩
      exact hfill r hr
    rw [Table.values]
    rw [List.eq_replicate_of_mem hmem]
    rw [List.length_map, add_missing_columns, rows_length_foldlAdd]
  · exact foldlAdd_id IDCOLUMNS (add_missing_columns t)
      (fun a ha => mem_columns_foldlAdd_self IDCOLUMNS t a ha)

/-- Witness for claim C9: the theorem applied at a concrete well-formed
table that lacks the "sedol" column. -/
theorem add_missing_columns_ok_w :
    WF okHoldings ∧
    (add_missing_columns okHoldings).values "sedol"
      = List.replicate okHoldings.rows.length (some (Value.str "")) ∧
    add_missing_columns (add_missing_columns okHoldings) = add_missing_columns okHoldings := by
  have hwf : WF okHoldings := by decide
  obtain ⟨h1, h2, h3, h4⟩ := add_missing_columns_ok okHoldings hwf
  exact ⟨hwf, h3 "sedol" (by decide) (by decide), h4⟩


/-!  Theorems for claim C2: `check_holdings`. -/

theorem contains_eq_mem_decide {α : Type} [BEq α] [LawfulBEq α] (l : List α) (a : α) :
    l.contains a = decide (a ∈ l) := by
  simp

/-- Counterexample to claim C2: the table `cexExtra` satisfies every one of
the four failure-free conditions the claim lists, yet `check_holdings` fails
on it (because of its extra column), so "fails iff one of the four" is false. -/
theorem validate_extra_column_cex :
    check_holdings cexExtra = false ∧ claimValidateOk cexExtra = true := by
  constructor
  · decide
  · decide

/-- Claim C2 (amended): `check_holdings` succeeds iff every column is in the
allowed set (the condition the claim omits), both required columns are
present, at least one identifier column is present, every asstype value is in
the enumerated set, and "-" appears in no present identifier column; the
check is a pure predicate, so it never mutates the table. -/
theorem validate_succeeds_iff (t : Table) :
    check_holdings t = true ↔
      ((∀ c ∈ t.columns, c ∈ allowedColumns) ∧
       ("asstype" ∈ t.columns ∧ "fraction" ∈ t.columns) ∧
       (∃ c ∈ IDCOLUMNS, c ∈ t.columns) ∧
       (∀ v ∈ t.values "asstype", asstypeValOk v = true) ∧
       (∀ c ∈ IDCOLUMNS, c ∈ t.columns → some (Value.str "-") ∉ t.values c)) := by
  simp only [check_holdings, Bool.and_eq_true, List.all_eq_true, List.any_eq_true,
    Bool.or_eq_true, Bool.not_eq_true', contains_eq_mem_decide, decide_eq_true_eq,
    decide_eq_false_iff_not, and_assoc]
  constructor
  · rintro ⟨h1, h2, h3, h4, h5, h6⟩
    refine ⟨h1, h2, h3, h4, h5, fun c hc hcc => ?_⟩
    rcases h6 c hc with h | h
    · exact absurd hcc h
    · exact h
  · rintro ⟨h1, h2, h3, h4, h5, h6⟩
    refine ⟨h1, h2, h3, h4, h5, fun c hc => ?_⟩
    by_cases hcc : c ∈ t.columns
    · exact Or.inr (h6 c hc hcc)
    · exact Or.inl hcc

/-- Witness for claim C2: the amended theorem applied at a concrete valid
table, all conditions discharged by evaluation. -/
theorem validate_succeeds_iff_w : check_holdings okHoldings = true :=
  (validate_succeeds_iff okHoldings).mpr (by decide)

/-!  Theorems for claims C3 and C8: the snapshot store. -/

/-- Claim C3 (code evaluation): on a store whose year listing comes back from
`os.listdir` as ["2019", "2018"], `getlatest` descends into the positionally
last entry "2018" and returns a file under it, while the lexicographically
greatest year-month-day path (which the claim and the spec describe, computed
here by `specResolveLatest`) lies under "2019" — the code does not select the
lexicographically last child at the three directory levels. -/
theorem getlatest_picks_listdir_order :
    getlatest exStore "db" "K" = FileRes.found "db/K/2018/06/15/f.csv" ∧
    specResolveLatest exStore "db" "K" = some "db/K/2019/01/01/g.csv" ∧
    ("db/K/2018/06/15/f.csv" : String) ≠ "db/K/2019/01/01/g.csv" :=
  ⟨by decide, by decide, by decide⟩

/-- Claim C8: for every store, key and date, `get` builds the dated path; if
that directory is missing it returns `None` without raising; if the directory
exists, it returns `None` when the listing is empty and otherwise the
lexicographically greatest filename (a member of the listing that bounds every
other name) joined to the dated path. -/
theorem get_by_date_ok (root : FSEntry) (directory key : String) (d : Date) :
    (lookupPath root (segsOf key d) = none → get root directory key d = Except.ok none) ∧
    (∀ cs, lookupPath root (segsOf key d) = some (FSEntry.dir cs) →
      (cs = [] → get root directory key d = Except.ok none) ∧
      (cs ≠ [] →
        get root directory key d =
          Except.ok (some (getdir directory key d ++ "/" ++ maxName (cs.map Prod.fst))) ∧
        maxName (cs.map Prod.fst) ∈ cs.map Prod.fst ∧
        ∀ n ∈ cs.map Prod.fst, n ≤ maxName (cs.map Prod.fst))) := by
  constructor
  · intro h
    simp only [get, h]
  · intro cs h
    constructor
    · intro hcs
      subst hcs
      simp only [get, h]
      rfl
    · intro hne
      have hlen : cs.map Prod.fst ≠ [] := by
        intro hh
        exact hne (List.map_eq_nil_iff.mp hh)
      refine ⟨?_, maxName_mem _ hlen, fun n hn => le_maxName _ n hn⟩
      simp only [get, h]
      rw [if_neg (fun hh => hne (List.isEmpty_iff.mp hh))]

/-- Witness for claim C8: the theorem applied at a concrete store with two
files on 2018-06-15, hypotheses discharged by evaluation. -/
theorem get_by_date_ok_w :
    get exG "db" "SPY" exD =
      Except.ok (some (getdir "db" "SPY" exD ++ "/" ++ maxName (exCs.map Prod.fst))) :=
  (((get_by_date_ok exG "db" "SPY" exD).2 exCs rfl).2 (by simp [exCs])).1

/-!  Theorems for the pipeline claims. -/

/-- Claim C10: on an input whose fraction column sums to 0 — here a holdings
table with no rows — `normalize_holdings_table` raises a division-by-zero
error, because the rescale factor 1/sum is computed without guarding against
a zero sum. -/
theorem normalize_zero_sum_raises :
    fracSum emptyHoldings = 0 ∧
    normalize_holdings_table emptyHoldings = Except.error "ZeroDivisionError" :=
  ⟨rfl, rfl⟩

/-- Counterexample to claim C4: under the default configuration (the
ignore-missing-issuer toggle off) a position whose issuer has no registered
implementation aborts the whole run — it is not skipped, contrary to the
claim that skipping is the default. -/
theorem missing_issuer_default_aborts :
    processPosition cfgDefault regEmpty (FSEntry.dir []) "db" posV
      = StepResult.abort "Missing issuer: vanguard" ∧
    StepResult.abort "Missing issuer: vanguard" ≠ StepResult.skip :=
  ⟨rfl, by decide⟩

/-- Claim C4 (amended): for every position whose issuer key is nonempty and
has no registered implementation (and which is not dropped by the
short-position filter), the run aborts with a descriptive message by default,
and the position is skipped only when the ignore-missing-issuer toggle is
set. -/
theorem missing_issuer_policy (cfg : Config) (reg : String → Option Downloader)
    (store : FSEntry) (directory : String) (pos : Position)
    (h1 : pos.issuer ≠ "") (h2 : reg pos.issuer = none) (h3 : 0 ≤ pos.quantity) :
    processPosition cfg reg store directory pos =
      if cfg.ignoreMissingIssuer then StepResult.skip
      else StepResult.abort ("Missing issuer: " ++ pos.issuer) := by
  have hq : ¬(pos.quantity < 0 ∧ cfg.ignoreShorts = true) := fun hc =>
    absurd hc.1 (not_lt.mpr h3)
  rw [processPosition, if_neg hq, if_neg h1, h2]

/-- Witness for claim C4: the amended theorem applied with the toggle set at
a concrete position, hypotheses discharged by evaluation. -/
theorem missing_issuer_policy_w :
    processPosition cfgIgnore regEmpty (FSEntry.dir []) "db" posV = StepResult.skip := by
  have h := missing_issuer_policy cfgIgnore regEmpty (FSEntry.dir []) "db" posV
    (by decide) rfl (by decide)
  simpa [cfgIgnore] using h

/-- Claim C5 (code evaluation): the reporting step with the default zero
threshold raises an UnboundLocalError for every aggregated and annotated
table — `filt_annotable` is assigned only under `if args.threshold:` yet read
unconditionally — so a run with no threshold configured does not complete the
reporting step. -/
theorem reporting_zero_threshold_raises (aggtable annotable : Table) :
    reporting 0 aggtable annotable =
      Except.error "UnboundLocalError: local variable 'filt_annotable' referenced before assignment" := by
  rfl

/-- Claim C7: for a portfolio with exactly one position having an empty
issuer key, ticker "XYZ", quantity 100 and price 10, the pipeline (whatever
the registry and the store hold) synthesizes the single-row direct-equity
table and outputs exactly one canonical row with amount 1000, asstype Equity
and ticker "XYZ". -/
theorem pipeline_scenA (reg : String → Option Downloader) (store : FSEntry) (account : String) :
    ∃ t r, runPipeline cfgDefault reg store "db" [⟨"", "XYZ", account, 100, 10⟩] = Except.ok t ∧
      t.rows = [r] ∧
      Row.findv r "amount" = some (Value.num 1000) ∧
      Row.findv r "asstype" = some (Value.str "Equity") ∧
      Row.findv r "ticker" = some (Value.str "XYZ") := by
  refine ⟨_, _, rfl, rfl, ?_, rfl, rfl⟩
  show some (Value.num ((1 : ℚ) * (100 * 10))) = some (Value.num 1000)
  norm_num

/-- Claim C1 (code evaluation): the per-position pipeline never calls
`normalize_holdings_table`; a parsed disclosure with fractions
[0.3, 0.3, 0.3] (sum 0.9, outside the tolerance) passes validation and goes
straight to dollar conversion, producing amounts of 300 per row on a
1000-dollar position instead of the 1000/3 the claimed rescaling to
[1/3, 1/3, 1/3] would give. -/
theorem pipeline_no_rescale :
    ∃ t, processPosition cfgDefault regB storeB "db" posB = StepResult.ok t ∧
      t.values "amount" = [some (Value.num 300), some (Value.num 300), some (Value.num 300)] ∧
      fracSum scenB = 9/10 ∧
      (Value.num 300 : Value) ≠ Value.num (1000/3) := by
  refine ⟨_, rfl, ?_, ?_, ?_⟩
  · show [some (Value.num ((3 / 10 : ℚ) * (100 * 10))), some (Value.num ((3 / 10 : ℚ) * (100 * 10))),
      some (Value.num ((3 / 10 : ℚ) * (100 * 10)))] = _
    norm_num
  · norm_num [fracSum, scenB, Row.getQ, Row.getv, Row.findv, List.lookup, Value.toQ]
  · intro h
    rw [Value.num.injEq] at h
    norm_num at h

end Baskets
